import Mathlib

/-!
# VulnScan response-translator verification

A shallow embedding of the OpenVAS response-translation layer of the
VulnScan repository (`backend/scanner/openvas.py`, `backend/routes/scanner_routes.py`,
`routes/AI.py`) together with theorems settling the specification claims about it.

XML trees returned by the scan engine are modelled by `Xml`; the lxml/ElementTree
query helpers used by the code (`findall('.//tag')`, `findtext`, attribute access,
the `xpath` text queries) are modelled by the `Xml.*` functions below.  Python
exceptions raised by the translated code are modelled by `Except PyErr`.
-/

set_option autoImplicit false
set_option maxRecDepth 32768

/-- A parsed XML element as produced by lxml: a tag, an attribute list, optional
leading text (lxml `.text`, `none` when the element has no text node), and the
list of child elements in document order. -/
inductive Xml where
  | elem (tag : String) (attrs : List (String × String)) (text : Option String)
      (children : List Xml)
deriving Repr

def Xml.tag : Xml → String
  | .elem t _ _ _ => t

def Xml.attrs : Xml → List (String × String)
  | .elem _ a _ _ => a

def Xml.text : Xml → Option String
  | .elem _ _ tx _ => tx

def Xml.children : Xml → List Xml
  | .elem _ _ _ cs => cs

/-- `e.attrib.get(k)` in Python: the attribute value, or `None` when absent. -/
def Xml.attr (e : Xml) (k : String) : Option String :=
  (e.attrs.find? (fun p => p.1 == k)).map (fun p => p.2)

mutual

/-- All proper descendants of an element in document (pre-)order; the node set
walked by an lxml `'.//tag'` query before tag filtering. -/
def Xml.descendants : Xml → List Xml
  | .elem _ _ _ cs => descList cs

def descList : List Xml → List Xml
  | [] => []
  | c :: cs => c :: (Xml.descendants c ++ descList cs)

end

/-- `e.findall('.//t')`: every descendant with the given tag, in document order. -/
def Xml.findallDesc (e : Xml) (t : String) : List Xml :=
  e.descendants.filter (fun c => c.tag == t)

/-- `e.find('.//t')`: the first descendant with the given tag, if any. -/
def Xml.findDesc (e : Xml) (t : String) : Option Xml :=
  (e.findallDesc t).head?

/-- `e.xpath('//t')` evaluated on a response root: the root itself and every
descendant, filtered by tag. -/
def Xml.xpathAll (e : Xml) (t : String) : List Xml :=
  (e :: e.descendants).filter (fun c => c.tag == t)

/-- The children of `e` carrying tag `t`, in order (one `'t'` path step). -/
def Xml.childrenNamed (e : Xml) (t : String) : List Xml :=
  e.children.filter (fun c => c.tag == t)

/-- `e.find('t')` for a plain child tag: the first child with that tag. -/
def Xml.childNamed (e : Xml) (t : String) : Option Xml :=
  (e.childrenNamed t).head?

/-- `e.findtext('t', default=d)`: the text of the first child tagged `t`
(an element whose `.text` is `None` counts as the empty string), or the default
when no such child exists. -/
def Xml.findtextD (e : Xml) (t dflt : String) : String :=
  match e.childNamed t with
  | some c => c.text.getD ""
  | none => dflt

/-- `e.findtext('t')` with no default: `None` when the child is absent. -/
def Xml.findtextOpt (e : Xml) (t : String) : Option String :=
  (e.childNamed t).map (fun c => c.text.getD "")

/-- The `text()` node list of an element: `[s]` when lxml `.text` is the string
`s`, `[]` when it is `None`. -/
def Xml.textList (e : Xml) : List String :=
  match e.text with
  | some s => [s]
  | none => []

/-- `e.xpath('t/text()')`: the text nodes of the children tagged `t`. -/
def Xml.childTexts (e : Xml) (t : String) : List String :=
  (e.childrenNamed t).flatMap Xml.textList

/-- A Python exception escaping the translated code. -/
inductive PyErr where
  | valueError (msg : String)
  | attributeError (msg : String)
  | typeError (msg : String)
deriving Repr, DecidableEq

/-- Python truthiness of a string-or-`None` value (`None` and `""` are falsy). -/
def pyTruthy : Option String → Bool
  | none => false
  | some s => s != ""

/-- Python `x or d` for a string-or-`None` value `x` and a string default. -/
def pyOr (x : Option String) (d : String) : String :=
  match x with
  | some s => if s == "" then d else s
  | none => d

/-- Python `str()` rendering of a string-or-`None` value inside an f-string. -/
def pyShow : Option String → String
  | none => "None"
  | some s => s

/-- Decidable equality for `Except`, used to evaluate concrete translator
runs inside proofs. -/
instance {eps alpha : Type} [DecidableEq eps] [DecidableEq alpha] :
    DecidableEq (Except eps alpha) := fun a b =>
  match a, b with
  | Except.ok x, Except.ok y =>
    match decEq x y with
    | isTrue h => isTrue (by rw [h])
    | isFalse h => isFalse (fun hc => h (by injection hc))
  | Except.ok _, Except.error _ => isFalse (fun hc => by injection hc)
  | Except.error _, Except.ok _ => isFalse (fun hc => by injection hc)
  | Except.error x, Except.error y =>
    match decEq x y with
    | isTrue h => isTrue (by rw [h])
    | isFalse h => isFalse (fun hc => h (by injection hc))

/-- `List.mapM` in the `Except` monad, written with explicit matches: the
translation of a Python `for` loop whose body may raise, aborting the whole
call on the first exception. -/
def exMapM {α β : Type} (f : α → Except PyErr β) : List α → Except PyErr (List β)
  | [] => Except.ok []
  | a :: t =>
    match f a with
    | Except.error e => Except.error e
    | Except.ok b =>
      match exMapM f t with
      | Except.error e => Except.error e
      | Except.ok bs => Except.ok (b :: bs)

/-- Splitting a character list on a non-empty separator, with explicit fuel
(one unit per input position) so that it evaluates inside the kernel; the
semantics of Python `str.split(sep)` for a non-empty separator. -/
def splitChF (sep : List Char) : Nat → List Char → List (List Char)
  | _, [] => [[]]
  | 0, l => [l]
  | n + 1, c :: rest =>
    if sep ≠ [] ∧ sep.isPrefixOf (c :: rest) then
      [] :: splitChF sep n ((c :: rest).drop sep.length)
    else
      match splitChF sep n rest with
      | [] => [[c]]
      | g :: gs => (c :: g) :: gs

/-- `s.split(sep)` for a non-empty separator (Python) / `String.splitOn`. -/
def strSplitOn (s sep : String) : List String :=
  (splitChF sep.data s.data.length s.data).map List.asString

/-- `s.upper()` / `String.toUpper`, over the character list. -/
def strToUpper (s : String) : String :=
  (s.data.map Char.toUpper).asString

/-- The longest digit prefix of a character list and the remaining suffix
(the greedy step of a regex `\d+` / the digit run of a decimal literal). -/
def takeDigits : List Char → List Char × List Char
  | [] => ([], [])
  | c :: rest =>
    if c.isDigit then
      ((takeDigits rest).1.cons c, (takeDigits rest).2)
    else ([], c :: rest)

/-- Value of a digit string. -/
def digitsToNat (ds : List Char) : Nat :=
  ds.foldl (fun n c => n * 10 + (c.toNat - 48)) 0

/-- Models Python `float()` on plain decimal literals (optional sign, integer
part, optional fractional part): `none` exactly where `float()` raises
`ValueError`, in particular on the empty string.  (Forms such as exponents,
`inf`, or surrounding whitespace do not occur in the translated data paths.) -/
def pyFloat (s : String) : Option Rat :=
  let step1 : Bool × List Char :=
    match s.data with
    | '-' :: r => (true, r)
    | '+' :: r => (false, r)
    | r => (false, r)
  let ip := takeDigits step1.2
  let signed : Rat → Rat := fun q => if step1.1 then -q else q
  match ip.2 with
  | [] =>
    if ip.1 = [] then none else some (signed (digitsToNat ip.1))
  | '.' :: r =>
    let fp := takeDigits r
    if fp.2 = [] then
      if ip.1 = [] ∧ fp.1 = [] then none
      else some (signed ((digitsToNat ip.1 : Rat) +
        (digitsToNat fp.1 : Rat) / ((10 : Rat) ^ fp.1.length)))
    else none
  | _ => none

/-- `float(s)` as run inside the translated code: raises `ValueError` when the
string is not a float literal. -/
def pyFloatE (s : String) : Except PyErr Rat :=
  match pyFloat s with
  | some q => Except.ok q
  | none => Except.error (PyErr.valueError ("could not convert string to float: " ++ s))

/-! ## CVE regex extraction (`re.findall(r'CVE-\d{4}-\d+', description)`) -/

/-- A single anchored attempt of the pattern `CVE-\d{4}-\d+` at the head of the
character list: on success, the matched characters (with `\d+` greedy) and the
rest of the input after the match. -/
def matchCVE : List Char → Option (List Char × List Char)
  | c1 :: c2 :: c3 :: c4 :: d1 :: d2 :: d3 :: d4 :: c9 :: rest =>
    if c1 = 'C' ∧ c2 = 'V' ∧ c3 = 'E' ∧ c4 = '-' ∧ c9 = '-' ∧
        d1.isDigit ∧ d2.isDigit ∧ d3.isDigit ∧ d4.isDigit then
      if (takeDigits rest).1 = [] then none
      else
        some ((c1 :: c2 :: c3 :: c4 :: d1 :: d2 :: d3 :: d4 :: c9 :: (takeDigits rest).1),
          (takeDigits rest).2)
    else none
  | _ => none

theorem takeDigits_snd_length (l : List Char) : (takeDigits l).2.length ≤ l.length := by
  induction l with
  | nil => simp [takeDigits]
  | cons c rest ih =>
    by_cases h : c.isDigit <;> simp [takeDigits, h] <;> omega

theorem matchCVE_rest_lt (l m r : List Char) (h : matchCVE l = some (m, r)) :
    r.length < l.length := by
  unfold matchCVE at h
  split at h
  · split at h
    · split at h
      · exact absurd h (by simp)
      · simp only [Option.some.injEq, Prod.mk.injEq] at h
        obtain ⟨-, hr⟩ := h
        subst hr
        refine lt_of_le_of_lt (takeDigits_snd_length _) ?_
        simp only [List.length_cons]
        omega
    · exact absurd h (by simp)
  · exact absurd h (by simp)

/-- The non-overlapping left-to-right scan performed by `re.findall`, written
with an explicit fuel argument (one unit per input position) so that it
reduces by evaluation: at each position try the pattern; on a match record it
and continue after it, otherwise advance one character. -/
def cveScanF : Nat → List Char → List String
  | 0, _ => []
  | _ + 1, [] => []
  | n + 1, c :: rest =>
    match matchCVE (c :: rest) with
    | some (m, r) => m.asString :: cveScanF n r
    | none => cveScanF n rest

/-- The `re.findall` scan over a character list (the fuel `l.length` always
suffices, see `cveScanF_adequate`). -/
def cveScan (l : List Char) : List String :=
  cveScanF l.length l

/-- `re.findall(r'CVE-\d{4}-\d+', d)`. -/
def cveFindall (d : String) : List String :=
  cveScan d.data

theorem cveScanF_adequate (n : Nat) : ∀ (m : Nat) (l : List Char),
    l.length ≤ m → m ≤ n → cveScanF m l = cveScanF l.length l := by
  induction n with
  | zero =>
    intro m l hm hn
    have hm0 : m = 0 := Nat.le_zero.mp hn
    subst hm0
    have : l = [] := List.length_eq_zero.mp (Nat.le_zero.mp hm)
    subst this
    rfl
  | succ n ih =>
    intro m l hm hn
    cases l with
    | nil => cases m <;> rfl
    | cons c rest =>
      cases m with
      | zero => simp at hm
      | succ m' =>
        simp only [cveScanF, List.length_cons]
        cases hmc : matchCVE (c :: rest) with
        | some mr =>
          rcases mr with ⟨mm, rr⟩
          have hlt := matchCVE_rest_lt (c :: rest) mm rr hmc
          simp only [List.length_cons] at hlt hm
          have h1 : cveScanF m' rr = cveScanF rr.length rr :=
            ih m' rr (by omega) (by omega)
          have h2 : cveScanF rest.length rr = cveScanF rr.length rr :=
            ih rest.length rr (by omega) (by omega)
          show mm.asString :: cveScanF m' rr = mm.asString :: cveScanF rest.length rr
          rw [h1, h2]
        | none =>
          simp only [List.length_cons] at hm
          have h1 : cveScanF m' rest = cveScanF rest.length rest :=
            ih m' rest (by omega) (by omega)
          show cveScanF m' rest = cveScanF rest.length rest
          rw [h1]

/-! ## Response records and translator functions (`backend/scanner/openvas.py`) -/

/-- The error message `f"Error {status}: {status_text}"` raised by the
status-checking accessors. -/
def errMsg (resp : Xml) : String :=
  "Error " ++ pyShow (resp.attr "status") ++ ": " ++ pyShow (resp.attr "status_text")

/-- A role record as built by `get_roles`. -/
structure RoleData where
  id : Option String
  name : String
  description : String
  permissions : List String
  creation_time : String
  modification_time : String
deriving Repr, DecidableEq

/-- The per-element extraction in `get_roles`. -/
def roleDataOf (e : Xml) : RoleData where
  id := e.attr "id"
  name := e.findtextD "name" ""
  description := e.findtextD "description" ""
  permissions := strSplitOn (e.findtextD "permissions" "") ","
  creation_time := e.findtextD "creation_time" ""
  modification_time := e.findtextD "modification_time" ""

/-- `get_roles`: checks for engine status `'200'` and raises
`ValueError(f"Error {status}: {status_text}")` otherwise. -/
def getRolesTr (resp : Xml) : Except PyErr (List RoleData) :=
  if resp.attr "status" == some "200" then
    Except.ok ((resp.findallDesc "role").map roleDataOf)
  else
    Except.error (PyErr.valueError (errMsg resp))

/-- `report_element.find('.//task')` based task id: the `id` attribute when the
element exists (Python `None` when the attribute is absent), `"N/A"` otherwise. -/
def taskIdOf (e : Xml) : Option String :=
  match e.findDesc "task" with
  | some t => t.attr "id"
  | none => some "N/A"

/-- `report_element.find('.//vulns/count')`: the first `count` child of a
descendant `vulns` element. -/
def vulnsCountNode (e : Xml) : Option Xml :=
  ((e.findallDesc "vulns").flatMap (fun v => v.childrenNamed "count")).head?

/-- A report record as built by `get_reports` (list endpoint).  `vulns_count`
is `.text` of the guarded `find('.//vulns/count')`, hence an
`Option String` (Python `None` when the element exists without text). -/
structure ReportListData where
  id : Option String
  name : String
  creation_time : String
  modification_time : String
  scan_run_status : String
  vulns_count : Option String
  task_id : Option String
deriving Repr, DecidableEq

/-- The per-element extraction in `get_reports` (note the `is not None` guard
on `vulns/count`, defaulting to `"0"`). -/
def reportListDataOf (e : Xml) : ReportListData where
  id := e.attr "id"
  name := e.findtextD "name" ""
  creation_time := e.findtextD "creation_time" ""
  modification_time := e.findtextD "modification_time" ""
  scan_run_status := e.findtextD "scan_run_status" ""
  vulns_count := match vulnsCountNode e with
    | some c => c.text
    | none => some "0"
  task_id := taskIdOf e

/-- `get_reports`: no status check is performed; the function parses whatever
report elements the envelope contains and returns them (an error envelope
simply yields an empty list). -/
def getReportsTr (resp : Xml) : List ReportListData :=
  (resp.findallDesc "report").map reportListDataOf

/-- A raw report record as built inside `get_reports_with_tasks` (no
`scan_run_status` key in this variant). -/
structure RepWT where
  id : Option String
  name : String
  creation_time : String
  modification_time : String
  vulns_count : String
  task_id : Option String
deriving Repr, DecidableEq

/-- `report_element.find('.//vulns/count').text or "0"` as written in
`get_reports_with_tasks`: the `or` only repairs a `None`/empty text, while a
missing `vulns/count` element makes `find` return `None` and the attribute
access `.text` raise `AttributeError`. -/
def vulnsCountWT (e : Xml) : Except PyErr String :=
  match vulnsCountNode e with
  | some c => Except.ok (pyOr c.text "0")
  | none => Except.error (PyErr.attributeError "NoneType object has no attribute text")

/-- The per-element extraction in `get_reports_with_tasks`. -/
def repWTOf (e : Xml) : Except PyErr RepWT :=
  match vulnsCountWT e with
  | Except.error er => Except.error er
  | Except.ok vc =>
    Except.ok
      { id := e.attr "id"
        name := e.findtextD "name" ""
        creation_time := e.findtextD "creation_time" ""
        modification_time := e.findtextD "modification_time" ""
        vulns_count := vc
        task_id := taskIdOf e }

/-- The raw-report parsing loop of `get_reports_with_tasks`. -/
def parseRawWT (resp : Xml) : Except PyErr (List RepWT) :=
  exMapM repWTOf (resp.findallDesc "report")

/-- The duplicate-id merge rule of `get_reports_with_tasks`: the stored entry
is replaced only when its name is empty and the new entry's name is not. -/
def mergeRule (old new : RepWT) : RepWT :=
  if old.name == "" && new.name != "" then new else old

/-- One iteration of the `unique_reports` dictionary fold: insert a fresh id at
the end, or conditionally replace the stored entry in place. -/
def dedupStep (acc : List RepWT) (r : RepWT) : List RepWT :=
  match acc.find? (fun x => x.id == r.id) with
  | some existing =>
    if existing.name == "" && r.name != "" then
      acc.map (fun x => if x.id == r.id then r else x)
    else acc
  | none => acc ++ [r]

/-- The `unique_reports` dictionary of `get_reports_with_tasks`, in insertion
order (Python dicts preserve insertion order and keep the position of a key on
value replacement). -/
def dedupReports (raws : List RepWT) : List RepWT :=
  raws.foldl dedupStep []

/-- A task record as built by `get_tasks`. -/
structure TaskData where
  id : String
  name : String
  status : String
deriving Repr, DecidableEq

/-- The per-element extraction in `get_tasks` (`xpath` with `"N/A"` defaults). -/
def taskDataOf (e : Xml) : TaskData where
  id := (e.attr "id").getD "N/A"
  name := ((e.childTexts "name").head?).getD "N/A"
  status := ((e.childTexts "status").head?).getD "N/A"

/-- `get_tasks`: raises only on an explicit status `'400'`. -/
def getTasksTr (resp : Xml) : Except PyErr (List TaskData) :=
  if resp.attr "status" == some "400" then
    Except.error (PyErr.valueError (errMsg resp))
  else
    Except.ok ((resp.findallDesc "task").map taskDataOf)

/-- `tasks_info.get(task_id, {}).get("name", "Not available")` where
`tasks_info` is the dict comprehension keyed on task id (a later task with the
same id overwrites an earlier one). -/
def taskNameLookup (tasks : List TaskData) (key : Option String) : String :=
  match key with
  | none => "Not available"
  | some k =>
    match (tasks.filter (fun t => t.id == k)).getLast? with
    | some t => t.name
    | none => "Not available"

/-- A result record as built inside `get_report_by_id`. -/
structure ResultData where
  id : Option String
  host : String
  port : String
  description : String
  cve_numbers : List String
  severity : String
  threat : String
deriving Repr, DecidableEq

/-- Port extraction in `get_report_by_id`: scan `result.find('.//details')` for
the first `detail` whose `name` text equals `"location"`, and keep the part of
its `value` before the first `'/'`; default `"N/A"`. -/
def portOf (res : Xml) : String :=
  match res.findDesc "details" with
  | none => "N/A"
  | some details =>
    match (details.findallDesc "detail").find?
        (fun d => d.findtextD "name" "" == "location") with
    | some d => ((strSplitOn (d.findtextD "value" "") "/").head?).getD ""
    | none => "N/A"

/-- The per-result extraction in `get_report_by_id`.  Note `severity` uses
`findtext('severity', default="")` — the default is the empty string, not
`"0"`. -/
def resultDataOf (res : Xml) : ResultData :=
  let description := res.findtextD "description" ""
  { id := res.attr "id"
    host := res.findtextD "host" ""
    port := portOf res
    description := description
    cve_numbers := cveFindall description
    severity := res.findtextD "severity" ""
    threat := res.findtextD "threat" "" }

/-- The `analyze_cve` route's downstream defaulting (`routes/AI.py`): an empty
`cve_numbers` list is replaced by `["unknown"]` there, not in the translator. -/
def aiCveNumbers (cve_numbers : List String) : List String :=
  if cve_numbers = [] then ["unknown"] else cve_numbers

/-- A report-detail record as built by `get_report_by_id`. -/
structure ReportDetailData where
  id : String
  name : String
  creation_time : String
  modification_time : String
  scan_run_status : String
  vulns_count : Option String
  task_id : Option String
  results : List ResultData
deriving Repr, DecidableEq

/-- `report_element.findall('.//results/result')`. -/
def reportResults (re' : Xml) : List ResultData :=
  ((re'.findallDesc "results").flatMap (fun rs => rs.childrenNamed "result")).map
    resultDataOf

/-- `get_report_by_id`: locate the report element whose `id` attribute matches,
translate it (raising `ValueError(f"Error {status}: {status_text}")` when no
such element exists). -/
def getReportByIdTr (reportId : String) (resp : Xml) : Except PyErr ReportDetailData :=
  match (resp.findallDesc "report").find? (fun e => e.attr "id" == some reportId) with
  | some re' =>
    Except.ok
      { id := reportId
        name := re'.findtextD "name" ""
        creation_time := re'.findtextD "creation_time" ""
        modification_time := re'.findtextD "modification_time" ""
        scan_run_status := re'.findtextD "scan_run_status" ""
        vulns_count := match vulnsCountNode re' with
          | some c => c.text
          | none => some "0"
        task_id := match resp.findDesc "task" with
          | some t => t.attr "id"
          | none => some "N/A"
        results := reportResults re' }
  | none => Except.error (PyErr.valueError (errMsg resp))

/-- The severity computation of `get_reports_with_tasks`:
`max(float(result.get("severity", 0)) for result in report_results)` when the
result list is non-empty (every record carries a `severity` key, so the `.get`
default never applies and `float` runs on the stored string), `0` otherwise. -/
def highestSeverity (results : List ResultData) : Except PyErr Rat :=
  match exMapM (fun res => pyFloatE res.severity) results with
  | Except.error e => Except.error e
  | Except.ok [] => Except.ok 0
  | Except.ok (s :: rest) => Except.ok (rest.foldl max s)

/-- The aggregated output record of `get_reports_with_tasks`: the raw report
dictionary (unchanged base fields — the `pop` of `scan_run_status` is a no-op
because this parse never stores that key) extended with `task_name` and
`highest_severity`. -/
structure ReportOut where
  base : RepWT
  task_name : String
  highest_severity : Rat
deriving Repr, DecidableEq

/-- The per-report enrichment step of `get_reports_with_tasks`.  `details`
stands for the remote `self.get_report_by_id` fetch keyed by the report's id. -/
def enrichOne (tasks : List TaskData)
    (details : Option String → Except PyErr ReportDetailData) (r : RepWT) :
    Except PyErr ReportOut :=
  match details r.id with
  | Except.error e => Except.error e
  | Except.ok d =>
    match highestSeverity d.results with
    | Except.error e => Except.error e
    | Except.ok hs =>
      Except.ok
        { base := r
          task_name := taskNameLookup tasks r.task_id
          highest_severity := hs }

/-- `get_reports_with_tasks`, with the two remote collaborators supplied as
parameters: `tasks` is the translated result of the single `get_tasks` call
and `details` the per-report `get_report_by_id` fetch. -/
def getReportsWithTasksTr (resp : Xml) (tasks : List TaskData)
    (details : Option String → Except PyErr ReportDetailData) :
    Except PyErr (List ReportOut) :=
  match parseRawWT resp with
  | Except.error e => Except.error e
  | Except.ok raws => exMapM (enrichOne tasks details) (dedupReports raws)

/-! ## Schedule codec

The `create_schedule` route builds a single-event iCalendar object through the
third-party `icalendar` library and serializes it with `to_ical`;
`get_schedules` parses the stored text with `Calendar.from_ical` and derives a
human-readable period.  The library subset actually exercised (one `VCALENDAR`
with one `VEVENT` holding `DTSTAMP`, `DTSTART` and one `RRULE`) is modelled
below: `to_ical` emits CRLF-terminated `NAME:VALUE` content lines with
`RRULE` parameters as `KEY=VALUE` pairs and the frequency keyword uppercased
(`vFrequency.to_ical`), and `from_ical` rejects a content line without a colon
and parses `RRULE` back into a key/value mapping, uppercasing the frequency
and converting `INTERVAL` with `int()`. -/

/-- Python `int(s)` on a plain integer literal, `none` where it raises. -/
def pyIntParse (s : String) : Option Int :=
  match s.data with
  | '-' :: ds =>
    if ds ≠ [] ∧ ds.all Char.isDigit then some (-(digitsToNat ds : Int)) else none
  | ds => if ds ≠ [] ∧ ds.all Char.isDigit then some ((digitsToNat ds : Int)) else none

/-- `datetime.strptime(s, '%Y-%m-%dT%H:%M:%S')` followed by the compact
iCalendar rendering `YYYYMMDDTHHMMSS` (shape and digit checking only). -/
def strptimeCompact (s : String) : Option String :=
  match strSplitOn s "T" with
  | [d, t] =>
    match strSplitOn d "-", strSplitOn t ":" with
    | [y, mo, da], [h, mi, se] =>
      if y.length = 4 ∧ mo.length = 2 ∧ da.length = 2 ∧
          h.length = 2 ∧ mi.length = 2 ∧ se.length = 2 ∧
          (y ++ mo ++ da ++ h ++ mi ++ se).data.all Char.isDigit then
        some (y ++ mo ++ da ++ "T" ++ h ++ mi ++ se)
      else none
    | _, _ => none
  | _ => none

/-- The frequency keywords accepted by `icalendar`'s `vFrequency`. -/
def icalFrequencies : List String :=
  ["SECONDLY", "MINUTELY", "HOURLY", "DAILY", "WEEKLY", "MONTHLY", "YEARLY"]

/-- The serialized `RRULE` content line for the rule dictionary built by the
route (`freq`/`interval` always, `count` only when truthy); keys uppercased by
the rule mapping, frequency value uppercased by `vFrequency.to_ical`. -/
def rruleSerialized (frequency : String) (interval : Int) (count : Option Int) : String :=
  "RRULE:FREQ=" ++ strToUpper frequency ++
    (match count with
      | some c => if c == 0 then "" else ";COUNT=" ++ toString c
      | none => "") ++
    ";INTERVAL=" ++ toString interval

/-- CRLF-terminated joining of content lines (`to_ical` output form). -/
def joinCRLF (lines : List String) : String :=
  String.intercalate "\r\n" lines ++ "\r\n"

/-- The `create_schedule` route's iCalendar construction: parse `dtstart` with
`strptime` (raising on a malformed literal), validate the frequency keyword
(`vFrequency` raises on an unknown one), and serialize the calendar.
`dtstamp` stands for the `datetime.now` timestamp, irrelevant to decoding. -/
def encodeScheduleICal (dtstart frequency : String) (interval : Int)
    (count : Option Int) (dtstamp : String) : Except PyErr String :=
  match strptimeCompact dtstart with
  | none =>
    Except.error (PyErr.valueError ("time data does not match format: " ++ dtstart))
  | some ds =>
    if icalFrequencies.contains (strToUpper frequency) then
      Except.ok (joinCRLF
        ["BEGIN:VCALENDAR", "VERSION:2.0", "PRODID:-//VulunScan//",
         "BEGIN:VEVENT", "DTSTAMP:" ++ dtstamp, "DTSTART:" ++ ds,
         rruleSerialized frequency interval count,
         "END:VEVENT", "END:VCALENDAR"])
    else Except.error (PyErr.valueError ("Expected frequency, got: " ++ frequency))

/-- Split serialized calendar text into content lines. -/
def splitICalLines (txt : String) : List String :=
  ((strSplitOn txt "\r\n").flatMap (fun seg => strSplitOn seg "\n")).filter
    (fun l => l != "")

/-- Parse one content line into name and value; `from_ical` raises `ValueError`
on a line without a colon. -/
def parseContentLine (line : String) : Except PyErr (String × String) :=
  match strSplitOn line ":" with
  | [] => Except.error (PyErr.valueError "empty content line"
    )
  | [_] =>
    Except.error (PyErr.valueError
      ("Content line could not be parsed into parts: " ++ line))
  | name :: rest => Except.ok (name, String.intercalate ":" rest)

/-- The parsed `RRULE` mapping as used by `get_schedules` (`FREQ`, `INTERVAL`). -/
structure RRuleData where
  freq : Option String
  interval : Option Int
deriving Repr, DecidableEq

/-- `vRecur.from_ical` over the `KEY=VALUE;...` parts: frequency uppercased,
`INTERVAL` parsed with `int()` (raising on a bad literal), later duplicates
overwriting earlier ones, other keys ignored by the period derivation. -/
def parseRRuleLoop (acc : RRuleData) : List String → Except PyErr RRuleData
  | [] => Except.ok acc
  | part :: rest =>
    match strSplitOn part "=" with
    | [k, v] =>
      let ku := strToUpper k
      if ku == "FREQ" then parseRRuleLoop { acc with freq := some (strToUpper v) } rest
      else if ku == "INTERVAL" then
        match pyIntParse v with
        | some n => parseRRuleLoop { acc with interval := some n } rest
        | none =>
          Except.error (PyErr.valueError
            ("invalid literal for int with base 10: " ++ v))
      else parseRRuleLoop acc rest
    | _ => Except.error (PyErr.valueError ("Expected key=value pair, got: " ++ part))

/-- The property lists of the `VEVENT` components, in order, with explicit
fuel (one unit per property line) so that it evaluates inside the kernel. -/
def collectVEventsF : Nat → List (String × String) → List (List (String × String))
  | _, [] => []
  | 0, _ => []
  | n + 1, (nm, v) :: rest =>
    if nm == "BEGIN" && v == "VEVENT" then
      (rest.takeWhile (fun p => !(p.1 == "END" && p.2 == "VEVENT"))) ::
        collectVEventsF n
          ((rest.dropWhile (fun p => !(p.1 == "END" && p.2 == "VEVENT"))).drop 1)
    else collectVEventsF n rest

/-- The property lists of the `VEVENT` components, in order. -/
def collectVEvents (props : List (String × String)) : List (List (String × String)) :=
  collectVEventsF props.length props

/-- A parsed `VEVENT` as relevant to the period derivation. -/
structure VEventData where
  rrule : Option RRuleData
deriving Repr, DecidableEq

/-- Decode one `VEVENT`'s property list (the last `RRULE` wins in the parsed
mapping). -/
def eventOfProps (props : List (String × String)) : Except PyErr VEventData :=
  match (props.filter (fun p => p.1 == "RRULE")).getLast? with
  | some p =>
    match parseRRuleLoop { freq := none, interval := none } (strSplitOn p.2 ";") with
    | Except.error e => Except.error e
    | Except.ok rr => Except.ok { rrule := some rr }
  | none => Except.ok { rrule := none }

/-- The frequency-to-period mapping of `get_schedules` (five known
frequencies; anything else leaves the description `None`). -/
def periodDescription (freq : String) (interval : Int) : Option String :=
  if freq == "DAILY" then some ("Every " ++ toString interval ++ " day(s)")
  else if freq == "WEEKLY" then some ("Every " ++ toString interval ++ " week(s)")
  else if freq == "MONTHLY" then some ("Every " ++ toString interval ++ " month(s)")
  else if freq == "HOURLY" then some ("Every " ++ toString interval ++ " hour(s)")
  else if freq == "YEARLY" then some ("Every " ++ toString interval ++ " year(s)")
  else none

/-- The decode side of the schedule codec: `Calendar.from_ical` (raising on
malformed text) followed by the walk in `get_schedules`, each `VEVENT` with an
`RRULE` overwriting the period (`FREQ` defaulting to `''`, `INTERVAL` to `1`). -/
def decodePeriod (txt : String) : Except PyErr (Option String) :=
  match exMapM parseContentLine (splitICalLines txt) with
  | Except.error e => Except.error e
  | Except.ok props =>
    match exMapM eventOfProps (collectVEvents props) with
    | Except.error e => Except.error e
    | Except.ok events =>
      Except.ok (events.foldl
        (fun period ev =>
          match ev.rrule with
          | some rr => periodDescription ((rr.freq).getD "") ((rr.interval).getD 1)
          | none => period)
        none)

/-- A schedule record as built by `get_schedules` (plain `findtext` calls, so
every textual field is `None` when its element is absent). -/
structure ScheduleData where
  id : Option String
  name : Option String
  comment : Option String
  timezone : Option String
  period : Option String
  next_time : Option String
  last_time : Option String
  owner : Option String
  creation_time : Option String
  modification_time : Option String
deriving Repr, DecidableEq

/-- The per-element extraction in `get_schedules`: the period starts as `None`;
when the `icalendar` text is truthy it is decoded inside a `try` whose `except`
catches any parse failure, leaving the period `None` for that schedule only. -/
def scheduleDataOf (sch : Xml) : ScheduleData :=
  let ic := sch.findtextOpt "icalendar"
  { id := sch.attr "id"
    name := sch.findtextOpt "name"
    comment := sch.findtextOpt "comment"
    timezone := sch.findtextOpt "timezone"
    period :=
      if pyTruthy ic then
        match decodePeriod (ic.getD "") with
        | Except.ok p => p
        | Except.error _ => none
      else none
    next_time := sch.findtextOpt "next_time"
    last_time := sch.findtextOpt "last_time"
    owner := sch.findtextOpt "owner"
    creation_time := sch.findtextOpt "creation_time"
    modification_time := sch.findtextOpt "modification_time" }

/-- `get_schedules`: one record per `schedule` element, never aborted by a
malformed calendar payload. -/
def getSchedulesTr (resp : Xml) : List ScheduleData :=
  (resp.xpathAll "schedule").map scheduleDataOf

/-! ## Host records (`get_hosts`) -/

/-- Python-dict assignment `d[k] = v` on an ordered string-keyed dict: replace
in place when the key exists, append otherwise. -/
def dictSet (d : List (String × Option String)) (k : String) (v : Option String) :
    List (String × Option String) :=
  if d.any (fun p => p.1 == k) then
    d.map (fun p => if p.1 == k then (k, v) else p)
  else d ++ [(k, v)]

/-- Dict lookup: `some` of the stored value when the key is present. -/
def dictGet (d : List (String × Option String)) (k : String) : Option (Option String) :=
  (d.find? (fun p => p.1 == k)).map Prod.snd

/-- `asset.xpath('identifiers/identifier')`. -/
def identifiersOf (asset : Xml) : List Xml :=
  (asset.childrenNamed "identifiers").flatMap (fun ids => ids.childrenNamed "identifier")

/-- One identifier loop iteration of `get_hosts`: the first `name`/`value` text
node or `None`, stored only when both are truthy (`if name and value`). -/
def identStep (d : List (String × Option String)) (idf : Xml) :
    List (String × Option String) :=
  let name := (idf.childTexts "name").head?
  let value := (idf.childTexts "value").head?
  if pyTruthy name && pyTruthy value then dictSet d (name.getD "") (some (value.getD ""))
  else d

/-- The host record built by `get_hosts` for one `asset` element: the fixed
`'id'` key (attribute value or `None`) followed by the identifier fold. -/
def hostDataOf (asset : Xml) : List (String × Option String) :=
  (identifiersOf asset).foldl identStep [("id", asset.attr "id")]

/-- `get_hosts`: raises only on an explicit status `'400'`. -/
def getHostsTr (resp : Xml) : Except PyErr (List (List (String × Option String))) :=
  if resp.attr "status" == some "400" then
    Except.error (PyErr.valueError (errMsg resp))
  else Except.ok ((resp.xpathAll "asset").map hostDataOf)

/-! ## Targets and the host-to-target conversion route -/

/-- A target record as built by `get_targets` (plain `findtext`, all fields
`None`-able). -/
structure TargetData where
  id : Option String
  name : Option String
  comment : Option String
  hosts : Option String
  exclude_hosts : Option String
  port_list : Option String
  creation_time : Option String
  modification_time : Option String
deriving Repr, DecidableEq

/-- The per-element extraction in `get_targets`. -/
def targetDataOf (t : Xml) : TargetData where
  id := t.attr "id"
  name := t.findtextOpt "name"
  comment := t.findtextOpt "comment"
  hosts := t.findtextOpt "hosts"
  exclude_hosts := t.findtextOpt "exclude_hosts"
  port_list := (t.childNamed "port_list").bind (fun pl => pl.findtextOpt "name")
  creation_time := t.findtextOpt "creation_time"
  modification_time := t.findtextOpt "modification_time"

/-- `get_targets`: parses every `target` element into a plain dict record. -/
def getTargetsTr (resp : Xml) : List TargetData :=
  (resp.xpathAll "target").map targetDataOf

/-- A Python value as handled by the `convert_hosts_to_targets` route: either
one of the plain dicts actually returned by `scanner.get_targets()`, or an XML
element (which would support `findtext`). -/
inductive PyObj where
  | dict (t : TargetData)
  | xmlElem (e : Xml)
deriving Repr

/-- Python attribute dispatch for `x.findtext('name')`: defined on an lxml
element, an `AttributeError` on a plain dict. -/
def PyObj.findtextName (o : PyObj) : Except PyErr (Option String) :=
  match o with
  | PyObj.dict _ =>
    Except.error (PyErr.attributeError "dict object has no attribute findtext")
  | PyObj.xmlElem e => Except.ok (e.findtextOpt "name")

/-- The value of `scanner.get_targets()` as seen by the route: a list of plain
Python dicts. -/
def getTargetsObjs (resp : Xml) : List PyObj :=
  (getTargetsTr resp).map PyObj.dict

/-- An entry of the route's `hosts` request payload. -/
structure HostIn where
  hostname : Option String
  ip : Option String
deriving Repr, DecidableEq

/-- The observable outcome of the `convert_hosts_to_targets` route. -/
inductive ConvertOutcome where
  | created (targets : List (String × String))
  | badRequest (msg : String)
  | createError (msg : String)
  | unhandled (e : PyErr)
deriving Repr, DecidableEq

/-- The host loop of `convert_hosts_to_targets`: reject a host without a
truthy ip (400), derive the target name (hostname when truthy, else ip), skip
names already in the existing-name set, and otherwise call `create_target`
(whose `ValueError` becomes a 500 response). -/
def convertLoop (existingNames : List (Option String))
    (createTarget : String → String → Except String String)
    (acc : List (String × String)) : List HostIn → ConvertOutcome
  | [] => ConvertOutcome.created acc
  | h :: rest =>
    if !pyTruthy h.ip then ConvertOutcome.badRequest "IP address is required for each host"
    else
      let targetName := if pyTruthy h.hostname then h.hostname.getD "" else h.ip.getD ""
      if existingNames.contains (some targetName) then
        convertLoop existingNames createTarget acc rest
      else
        match createTarget targetName (h.ip.getD "") with
        | Except.ok tid =>
          convertLoop existingNames createTarget (acc ++ [(targetName, tid)]) rest
        | Except.error msg => ConvertOutcome.createError msg

/-- `convert_hosts_to_targets`: build the existing-target-name set by calling
`.findtext('name')` on every element of `scanner.get_targets()`'s return value,
then run the host loop; an exception in the set construction escapes the route
unhandled. -/
def convertHostsToTargets (targetsRet : List PyObj) (hostsIn : List HostIn)
    (createTarget : String → String → Except String String) : ConvertOutcome :=
  match exMapM PyObj.findtextName targetsRet with
  | Except.error e => ConvertOutcome.unhandled e
  | Except.ok names => convertLoop names createTarget [] hostsIn

/-- Independent characterization of a string matching the regex
`CVE-\d{4}-\d+` in its entirety: the literal prefix, exactly four digits, a
dash, and at least one digit. -/
def isCVEShape (s : String) : Prop :=
  ∃ a b : List Char,
    s.data = 'C' :: 'V' :: 'E' :: '-' :: (a ++ '-' :: b) ∧
    a.length = 4 ∧ (∀ c ∈ a, c.isDigit) ∧ b ≠ [] ∧ (∀ c ∈ b, c.isDigit)

/-- The `(name, value)` pair an identifier element contributes when both its
name and value are truthy, `none` otherwise. -/
def validPairOf (idf : Xml) : Option (String × String) :=
  if pyTruthy ((idf.childTexts "name").head?) &&
      pyTruthy ((idf.childTexts "value").head?) then
    some ((((idf.childTexts "name").head?)).getD "",
      (((idf.childTexts "value").head?)).getD "")
  else none

/-- The valid `(name, value)` identifier pairs of an asset, in document order
(those the `get_hosts` loop actually stores). -/
def validIdentPairs (asset : Xml) : List (String × String) :=
  (identifiersOf asset).filterMap validPairOf

/-- The value of the last pair carrying key `k`, if any. -/
def lastVal (l : List (String × String)) (k : String) : Option String :=
  l.foldl (fun a p => if p.1 == k then some p.2 else a) none

/-- The dictionary update applied to an already-stored report by a duplicate
entry, as an `Option`-state fold step. -/
def mergeStep (st : Option RepWT) (r : RepWT) : Option RepWT :=
  match st with
  | some e => some (mergeRule e r)
  | none => some r

/-! ## Helper lemmas -/

theorem exMapM_ok_forall {α β : Type} (f : α → Except PyErr β) (l : List α)
    (out : List β) (h : exMapM f l = Except.ok out) :
    List.Forall₂ (fun a b => f a = Except.ok b) l out := by
  induction l generalizing out with
  | nil =>
    simp only [exMapM, Except.ok.injEq] at h
    subst h
    exact List.Forall₂.nil
  | cons a t ih =>
    simp only [exMapM] at h
    cases hf : f a with
    | error e => rw [hf] at h; exact absurd h (by simp)
    | ok b =>
      rw [hf] at h
      cases ht : exMapM f t with
      | error e => rw [ht] at h; exact absurd h (by simp)
      | ok bs =>
        rw [ht] at h
        simp only [Except.ok.injEq] at h
        subst h
        exact List.Forall₂.cons hf (ih bs ht)

theorem forall₂_map_back {α β : Type} (R : α → β → Prop) (g : β → α)
    (l : List α) (out : List β) (h : List.Forall₂ R l out)
    (hg : ∀ a b, R a b → g b = a) : out.map g = l := by
  induction h with
  | nil => rfl
  | cons hr _ ih => simp [ih, hg _ _ hr]

theorem foldl_max_mem (s : Rat) (l : List Rat) : l.foldl max s ∈ s :: l := by
  induction l generalizing s with
  | nil => simp
  | cons a t ih =>
    simp only [List.foldl_cons]
    rcases List.mem_cons.mp (ih (max s a)) with h | h
    · rcases max_choice s a with hm | hm
      · exact List.mem_cons.mpr (Or.inl (h.trans hm))
      · exact List.mem_cons.mpr (Or.inr (List.mem_cons.mpr (Or.inl (h.trans hm))))
    · exact List.mem_cons.mpr (Or.inr (List.mem_cons.mpr (Or.inr h)))

theorem le_foldl_max (s : Rat) (l : List Rat) : ∀ q ∈ s :: l, q ≤ l.foldl max s := by
  induction l generalizing s with
  | nil =>
    intro q hq
    simp only [List.mem_singleton] at hq
    simp [hq]
  | cons a t ih =>
    intro q hq
    simp only [List.foldl_cons]
    rcases List.mem_cons.mp hq with h | h
    · subst h
      exact le_trans (le_max_left q a) (ih (max q a) _ (List.mem_cons_self _ _))
    · rcases List.mem_cons.mp h with h2 | h2
      · subst h2
        exact le_trans (le_max_right s q) (ih (max s q) _ (List.mem_cons_self _ _))
      · exact ih (max s a) q (List.mem_cons_of_mem _ h2)

theorem dedupStep_find (acc : List RepWT) (r : RepWT) (i : Option String) :
    (dedupStep acc r).find? (fun x => x.id == i) =
      if r.id == i then mergeStep (acc.find? (fun x => x.id == i)) r
      else acc.find? (fun x => x.id == i) := by
  by_cases hri : (r.id == i) = true
  · have hri' : i = r.id := (eq_of_beq hri).symm
    subst hri'
    rw [if_pos hri]
    cases hf : acc.find? (fun x => x.id == r.id) with
    | none =>
      simp only [dedupStep, hf]
      rw [List.find?_append, hf]
      simp only [mergeStep, Option.none_orElse]
      simp [List.find?]
    | some e =>
      simp only [dedupStep, hf]
      by_cases hcond : (e.name == "" && r.name != "") = true
      · rw [if_pos hcond]
        rw [List.find?_map]
        have hpred : (fun x : RepWT =>
            ((if x.id == r.id then r else x).id == r.id)) = fun x => x.id == r.id := by
          funext x
          by_cases hx : (x.id == r.id) = true
          · simp [hx]
          · simp [hx]
        rw [Function.comp_def]
        rw [hpred, hf]
        have he : (e.id == r.id) = true := by
          have := List.find?_some hf
          simpa using this
        simp [he, eq_of_beq he, mergeStep, mergeRule, hcond]
      · rw [if_neg hcond]
        rw [hf]
        simp only [mergeStep, mergeRule]
        rw [if_neg hcond]
  · rw [if_neg hri]
    cases hf : acc.find? (fun x => x.id == r.id) with
    | none =>
      simp only [dedupStep, hf]
      rw [List.find?_append]
      have : ([r].find? (fun x => x.id == i)) = none := by
        simp only [List.find?]
        rw [Bool.of_not_eq_true hri]
      rw [this]
      simp
    | some e =>
      simp only [dedupStep, hf]
      by_cases hcond : (e.name == "" && r.name != "") = true
      · rw [if_pos hcond]
        rw [List.find?_map]
        rw [Function.comp_def]
        have hpred2 : (fun x : RepWT =>
            ((if x.id == r.id then r else x).id == i)) = fun x => x.id == i := by
          funext x
          by_cases hx : (x.id == r.id) = true
          · have hx' : x.id = r.id := eq_of_beq hx
            simp only [hx, if_pos]
            rw [hx']
          · simp [hx]
        rw [hpred2]
        cases hg : acc.find? (fun x => x.id == i) with
        | none => simp
        | some e2 =>
          have he2 : (e2.id == i) = true := by
            have := List.find?_some hg
            simpa using this
          have hne : ¬ e2.id = r.id := by
            intro hcon
            rw [hcon] at he2
            exact hri he2
          simp [hne]
      · rw [if_neg hcond]

theorem dedup_fold_find (l acc : List RepWT) (i : Option String) :
    (l.foldl dedupStep acc).find? (fun x => x.id == i) =
      (l.filter (fun x => x.id == i)).foldl mergeStep
        (acc.find? (fun x => x.id == i)) := by
  induction l generalizing acc with
  | nil => rfl
  | cons r t ih =>
    simp only [List.foldl_cons, List.filter_cons]
    by_cases hri : (r.id == i) = true
    · rw [if_pos hri]
      simp only [List.foldl_cons]
      rw [ih (dedupStep acc r), dedupStep_find, if_pos hri]
    · rw [if_neg hri]
      rw [ih (dedupStep acc r), dedupStep_find, if_neg hri]

theorem foldl_mergeStep_some (rs : List RepWT) (e : RepWT) :
    rs.foldl mergeStep (some e) = some (rs.foldl mergeRule e) := by
  induction rs generalizing e with
  | nil => rfl
  | cons a t ih => simp only [List.foldl_cons, mergeStep]; exact ih (mergeRule e a)

theorem dedupStep_ids (acc : List RepWT) (r : RepWT) :
    (dedupStep acc r).map RepWT.id =
      match acc.find? (fun x => x.id == r.id) with
      | some _ => acc.map RepWT.id
      | none => acc.map RepWT.id ++ [r.id] := by
  cases hf : acc.find? (fun x => x.id == r.id) with
  | none => simp [dedupStep, hf]
  | some e =>
    simp only [dedupStep, hf]
    by_cases hcond : (e.name == "" && r.name != "") = true
    · rw [if_pos hcond]
      rw [List.map_map]
      refine List.map_congr_left ?_
      intro x _
      simp only [Function.comp]
      by_cases hx : (x.id == r.id) = true
      · simp [hx, (eq_of_beq hx).symm]
      · simp [hx]
    · rw [if_neg hcond]

theorem dedup_ids_nodup (l : List RepWT) (acc : List RepWT)
    (hacc : (acc.map RepWT.id).Nodup) :
    ((l.foldl dedupStep acc).map RepWT.id).Nodup := by
  induction l generalizing acc with
  | nil => exact hacc
  | cons r t ih =>
    simp only [List.foldl_cons]
    refine ih (dedupStep acc r) ?_
    rw [dedupStep_ids]
    cases hf : acc.find? (fun x => x.id == r.id) with
    | some e => exact hacc
    | none =>
      have hnot : r.id ∉ acc.map RepWT.id := by
        intro hmem
        rcases List.mem_map.mp hmem with ⟨x, hx, hxid⟩
        have := List.find?_eq_none.mp hf x hx
        rw [hxid] at this
        simp at this
      simp [List.nodup_append, hacc, hnot]

theorem dedup_mem_ids (l : List RepWT) (i : Option String) :
    (∃ r ∈ l, r.id = i) ↔ ∃ r ∈ dedupReports l, r.id = i := by
  have key : ∀ (m : List RepWT),
      ((m.filter (fun x => x.id == i)) = [] ↔ ¬ ∃ r ∈ m, r.id = i) := by
    intro m
    rw [List.filter_eq_nil_iff]
    constructor
    · rintro h ⟨r, hr, hid⟩
      exact h r hr (by simp [hid])
    · intro h r hr hb
      exact h ⟨r, hr, by simpa using hb⟩
  constructor
  · intro h
    have hne : (l.filter (fun x => x.id == i)) ≠ [] := fun hnil => (key l).mp hnil h
    cases hfil : l.filter (fun x => x.id == i) with
    | nil => exact absurd hfil hne
    | cons r0 rs =>
      have hfind : (dedupReports l).find? (fun x => x.id == i) =
          some (rs.foldl mergeRule r0) := by
        unfold dedupReports
        rw [dedup_fold_find, hfil]
        simp only [List.find?]
        simp only [List.foldl_cons, mergeStep]
        exact foldl_mergeStep_some rs r0
      refine ⟨rs.foldl mergeRule r0, List.mem_of_find?_eq_some hfind, ?_⟩
      have := List.find?_some hfind
      simpa using this
  · rintro ⟨r, hr, hid⟩
    by_contra hno
    have hfil : l.filter (fun x => x.id == i) = [] := by
      rw [List.filter_eq_nil_iff]
      intro x hx hb
      exact hno ⟨x, hx, by simpa using hb⟩
    have hfind : (dedupReports l).find? (fun x => x.id == i) = none := by
      unfold dedupReports
      rw [dedup_fold_find, hfil]
      rfl
    have := List.find?_eq_none.mp hfind r hr
    rw [hid] at this
    simp at this

theorem enrichOne_base (tasks : List TaskData)
    (details : Option String → Except PyErr ReportDetailData) (r : RepWT)
    (o : ReportOut) (h : enrichOne tasks details r = Except.ok o) : o.base = r := by
  cases hd : details r.id with
  | error e => simp [enrichOne, hd] at h
  | ok d =>
    cases hs : highestSeverity d.results with
    | error e => simp [enrichOne, hd, hs] at h
    | ok q =>
      simp only [enrichOne, hd, hs, Except.ok.injEq] at h
      rw [← h]


theorem takeDigits_spec (l : List Char) :
    (takeDigits l).1 ++ (takeDigits l).2 = l ∧ ∀ c ∈ (takeDigits l).1, c.isDigit := by
  induction l with
  | nil => simp [takeDigits]
  | cons c rest ih =>
    by_cases h : c.isDigit
    · simp only [takeDigits, h, if_pos, List.cons_append]
      refine ⟨?_, ?_⟩
      · show c :: ((takeDigits rest).1 ++ (takeDigits rest).2) = c :: rest
        rw [ih.1]
      · intro x hx
        rcases List.mem_cons.mp hx with h1 | h1
        · rw [h1]; exact h
        · exact ih.2 x h1
    · simp [takeDigits, h]

theorem matchCVE_spec (l m r : List Char) (h : matchCVE l = some (m, r)) :
    l = m ++ r ∧ isCVEShape m.asString := by
  unfold matchCVE at h
  split at h
  · split at h
    · split at h
      · exact absurd h (by simp)
      · rename_i c1 c2 c3 c4 d1 d2 d3 d4 c9 rest hguard htd
        simp only [Option.some.injEq, Prod.mk.injEq] at h
        obtain ⟨hm, hr⟩ := h
        obtain ⟨hc1, hc2, hc3, hc4, hc9, hd1, hd2, hd3, hd4⟩ := hguard
        subst hc1; subst hc2; subst hc3; subst hc4; subst hc9
        subst hm; subst hr
        constructor
        · simp only [List.cons_append]
          rw [(takeDigits_spec rest).1]
        · refine ⟨[d1, d2, d3, d4], (takeDigits rest).1, by simp [List.asString], rfl,
            ?_, htd, (takeDigits_spec rest).2⟩
          intro c hc
          simp only [List.mem_cons, List.not_mem_nil, or_false] at hc
          rcases hc with hc | hc | hc | hc
          · rw [hc]; exact hd1
          · rw [hc]; exact hd2
          · rw [hc]; exact hd3
          · rw [hc]; exact hd4
    · exact absurd h (by simp)
  · exact absurd h (by simp)

theorem matchCVE_of_shape (s : String) (t : List Char) (hs : isCVEShape s) :
    matchCVE (s.data ++ t) ≠ none := by
  obtain ⟨a, b, hdata, hlen, hadig, hbne, hbdig⟩ := hs
  rcases a with _ | ⟨a0, _ | ⟨a1, _ | ⟨a2, _ | ⟨a3, _ | ⟨a4, arest⟩⟩⟩⟩⟩ <;>
    simp only [List.length_cons, List.length_nil] at hlen
  · omega
  · omega
  · omega
  · omega
  · rcases b with _ | ⟨b0, b'⟩
    · exact absurd rfl hbne
    · rw [hdata]
      simp only [List.cons_append, List.append_assoc, List.nil_append]
      simp only [matchCVE]
      rw [if_pos (by simp [hadig a0 (by simp), hadig a1 (by simp),
        hadig a2 (by simp), hadig a3 (by simp)])]
      have htd : ¬ (takeDigits (b0 :: (b' ++ t))).1 = [] := by
        simp only [takeDigits]
        rw [if_pos (hbdig b0 (by simp))]
        simp
      rw [if_neg htd]
      simp
  · omega

theorem cveScan_cons_some (c : Char) (rest m r : List Char)
    (h : matchCVE (c :: rest) = some (m, r)) :
    cveScan (c :: rest) = m.asString :: cveScan r := by
  unfold cveScan
  simp only [List.length_cons, cveScanF, h]
  have hlt := matchCVE_rest_lt (c :: rest) m r h
  simp only [List.length_cons] at hlt
  rw [cveScanF_adequate rest.length rest.length r (by omega) le_rfl]

theorem cveScan_cons_none (c : Char) (rest : List Char)
    (h : matchCVE (c :: rest) = none) :
    cveScan (c :: rest) = cveScan rest := by
  unfold cveScan
  simp only [List.length_cons, cveScanF, h]

theorem cveScan_sound (n : Nat) : ∀ (l : List Char), l.length ≤ n →
    ∀ s ∈ cveScan l, isCVEShape s ∧ ∃ p q, l = p ++ s.data ++ q := by
  induction n with
  | zero =>
    intro l hl s hs
    rw [List.length_eq_zero.mp (Nat.le_zero.mp hl)] at hs
    simp [cveScan, cveScanF] at hs
  | succ n ih =>
    intro l hl s hs
    cases l with
    | nil => simp [cveScan, cveScanF] at hs
    | cons c rest =>
      cases hm : matchCVE (c :: rest) with
      | some mr =>
        rw [cveScan_cons_some c rest mr.1 mr.2 (by rw [hm])] at hs
        have hspec := matchCVE_spec (c :: rest) mr.1 mr.2 (by rw [hm])
        rcases List.mem_cons.mp hs with h1 | h1
        · subst h1
          refine ⟨hspec.2, [], mr.2, ?_⟩
          simp only [List.nil_append]
          have : (List.asString mr.1).data = mr.1 := rfl
          rw [this]
          exact hspec.1
        · have hlen2 : mr.2.length ≤ n := by
            have := matchCVE_rest_lt (c :: rest) mr.1 mr.2 (by rw [hm])
            simp only [List.length_cons] at this hl
            omega
          obtain ⟨hshape, p, q, hpq⟩ := ih mr.2 hlen2 s h1
          exact ⟨hshape, mr.1 ++ p, q, by rw [hspec.1, hpq, List.append_assoc,
            List.append_assoc, List.append_assoc]⟩
      | none =>
        rw [cveScan_cons_none c rest hm] at hs
        have hlen2 : rest.length ≤ n := by
          simp only [List.length_cons] at hl
          omega
        obtain ⟨hshape, p, q, hpq⟩ := ih rest hlen2 s hs
        exact ⟨hshape, c :: p, q, by rw [List.cons_append, List.cons_append, hpq]⟩

theorem cveScan_complete (n : Nat) : ∀ (l : List Char), l.length ≤ n →
    ∀ (s : String) (p q : List Char), isCVEShape s → l = p ++ s.data ++ q →
      cveScan l ≠ [] := by
  induction n with
  | zero =>
    intro l hl s p q hshape hpq
    rw [List.length_eq_zero.mp (Nat.le_zero.mp hl)] at hpq
    obtain ⟨a, b, hdata, -, -, -, -⟩ := hshape
    have : s.data ≠ [] := by rw [hdata]; simp
    rcases List.append_eq_nil.mp hpq.symm with ⟨h1, h2⟩
    rcases List.append_eq_nil.mp h1 with ⟨-, h3⟩
    exact absurd h3 this
  | succ n ih =>
    intro l hl s p q hshape hpq
    cases l with
    | nil =>
      obtain ⟨a, b, hdata, -, -, -, -⟩ := hshape
      have : s.data ≠ [] := by rw [hdata]; simp
      rcases List.append_eq_nil.mp hpq.symm with ⟨h1, h2⟩
      rcases List.append_eq_nil.mp h1 with ⟨-, h3⟩
      exact absurd h3 this
    | cons c rest =>
      cases hm : matchCVE (c :: rest) with
      | some mr =>
        rw [cveScan_cons_some c rest mr.1 mr.2 (by rw [hm])]
        simp
      | none =>
        rw [cveScan_cons_none c rest hm]
        cases p with
        | nil =>
          exfalso
          apply matchCVE_of_shape s q hshape
          rw [List.nil_append] at hpq
          rw [← hpq]
          rw [hm]
        | cons c0 p' =>
          simp only [List.cons_append, List.cons.injEq] at hpq
          refine ih rest ?_ s p' q hshape hpq.2
          simp only [List.length_cons] at hl
          omega

theorem dictGet_dictSet_self (d : List (String × Option String)) (k : String)
    (v : Option String) : dictGet (dictSet d k v) k = some v := by
  unfold dictSet dictGet
  by_cases h : d.any (fun p => p.1 == k)
  · rw [if_pos h]
    rw [List.find?_map, Function.comp_def]
    have hpred : (fun x : String × Option String =>
        ((if x.1 == k then (k, v) else x).1 == k)) = fun x => x.1 == k := by
      funext x
      by_cases hx : (x.1 == k) = true
      · simp [hx]
      · simp [hx]
    rw [hpred]
    rcases List.any_eq_true.mp h with ⟨x, hx, hxk⟩
    have hsome : (d.find? (fun p : String × Option String => p.1 == k)).isSome :=
      List.find?_isSome.mpr ⟨x, hx, hxk⟩
    rcases Option.isSome_iff_exists.mp hsome with ⟨y, hy⟩
    rw [hy]
    have hyk := List.find?_some hy
    simp [eq_of_beq hyk]
  · rw [if_neg h]
    have hnone : d.find? (fun p => p.1 == k) = none := by
      rw [List.find?_eq_none]
      intro x hx hxk
      exact h (List.any_eq_true.mpr ⟨x, hx, hxk⟩)
    rw [List.find?_append, hnone]
    simp [List.find?]

theorem dictGet_dictSet_ne (d : List (String × Option String)) (k k' : String)
    (v : Option String) (hne : ¬ k' = k) :
    dictGet (dictSet d k v) k' = dictGet d k' := by
  unfold dictSet dictGet
  by_cases h : d.any (fun p => p.1 == k)
  · rw [if_pos h]
    rw [List.find?_map, Function.comp_def]
    have hpred : (fun x : String × Option String =>
        ((if x.1 == k then (k, v) else x).1 == k')) = fun x => x.1 == k' := by
      funext x
      by_cases hx : (x.1 == k) = true
      · have hx' : x.1 = k := eq_of_beq hx
        simp only [hx, if_pos]
        rw [hx']
      · simp [hx]
    rw [hpred]
    cases hg : d.find? (fun p => p.1 == k') with
    | none => simp
    | some y =>
      have hyk : (y.1 == k') = true := by
        have := List.find?_some hg
        simpa using this
      have hyne : ¬ (y.1 == k) = true := by
        intro hcon
        exact hne ((eq_of_beq hyk).symm.trans (eq_of_beq hcon))
      simp only [Option.map_some']
      rw [if_neg hyne]
  · rw [if_neg h]
    rw [List.find?_append]
    have : ([(k, v)].find? (fun p => p.1 == k')) = none := by
      simp only [List.find?]
      have : ((k, v).1 == k') = false :=
        beq_eq_false_iff_ne.mpr (fun hc => hne hc.symm)
      rw [this]
    rw [this]
    cases d.find? (fun p => p.1 == k') <;> rfl

theorem identStep_eq (d : List (String × Option String)) (idf : Xml) :
    identStep d idf =
      match validPairOf idf with
      | some p => dictSet d p.1 (some p.2)
      | none => d := by
  unfold identStep validPairOf
  by_cases h : (pyTruthy ((idf.childTexts "name").head?) &&
      pyTruthy ((idf.childTexts "value").head?)) = true
  · simp only [h, if_pos]
  · simp [h]

theorem lastVal_aux (k : String) (l : List (String × String)) (a : Option String) :
    l.foldl (fun acc p => if p.1 == k then some p.2 else acc) a =
      match l.foldl (fun acc p => if p.1 == k then some p.2 else acc) none with
      | some w => some w
      | none => a := by
  induction l generalizing a with
  | nil => rfl
  | cons q t ih =>
    simp only [List.foldl_cons]
    rw [ih (if q.1 == k then some q.2 else a),
      ih (if q.1 == k then some q.2 else none)]
    cases ht : t.foldl (fun acc p => if p.1 == k then some p.2 else acc) none with
    | some w => rfl
    | none =>
      by_cases hq : (q.1 == k) = true
      · rw [if_pos hq, if_pos hq]
      · rw [if_neg hq, if_neg hq]

theorem identFold_get (k : String) (idents : List Xml)
    (acc : List (String × Option String)) :
    dictGet (idents.foldl identStep acc) k =
      match lastVal (idents.filterMap validPairOf) k with
      | some v => some (some v)
      | none => dictGet acc k := by
  induction idents generalizing acc with
  | nil => rfl
  | cons idf t ih =>
    simp only [List.foldl_cons, List.filterMap_cons]
    cases hp : validPairOf idf with
    | none =>
      rw [identStep_eq, hp]
      exact ih acc
    | some p =>
      rw [identStep_eq, hp]
      rw [ih (dictSet acc p.1 (some p.2))]
      have hcons : lastVal (p :: List.filterMap validPairOf t) k =
          match lastVal (List.filterMap validPairOf t) k with
          | some w => some w
          | none => if p.1 == k then some p.2 else none := by
        unfold lastVal
        simp only [List.foldl_cons]
        rw [lastVal_aux k (List.filterMap validPairOf t)
          (if p.1 == k then some p.2 else none)]
      rw [hcons]
      cases lastVal (List.filterMap validPairOf t) k with
      | some w => rfl
      | none =>
        by_cases hq : (p.1 == k) = true
        · rw [if_pos hq]
          rw [← eq_of_beq hq]
          rw [dictGet_dictSet_self]
        · rw [if_neg hq]
          rw [dictGet_dictSet_ne]
          intro hc
          exact absurd (beq_iff_eq.mpr hc.symm) (by simpa using hq)

theorem mem_dictSet (d : List (String × Option String)) (k : String) (v : Option String)
    (kv : String × Option String) (h : kv ∈ dictSet d k v) : kv = (k, v) ∨ kv ∈ d := by
  unfold dictSet at h
  by_cases ha : (d.any (fun p => p.1 == k)) = true
  · rw [if_pos ha] at h
    rcases List.mem_map.mp h with ⟨x, hx, hfx⟩
    by_cases hxk : (x.1 == k) = true
    · rw [if_pos hxk] at hfx
      exact Or.inl hfx.symm
    · rw [if_neg hxk] at hfx
      exact Or.inr (hfx ▸ hx)
  · rw [if_neg ha] at h
    rcases List.mem_append.mp h with h1 | h1
    · exact Or.inr h1
    · exact Or.inl (by simpa using h1)

theorem pyTruthy_getD (o : Option String) (h : pyTruthy o = true) : o.getD "" ≠ "" := by
  cases o with
  | none => simp [pyTruthy] at h
  | some s =>
    simp only [pyTruthy] at h
    simpa using h

theorem validPairOf_snd_ne (idf : Xml) (p : String × String)
    (h : validPairOf idf = some p) : p.2 ≠ "" := by
  unfold validPairOf at h
  by_cases hc : (pyTruthy ((idf.childTexts "name").head?) &&
      pyTruthy ((idf.childTexts "value").head?)) = true
  · rw [if_pos hc] at h
    simp only [Option.some.injEq] at h
    rw [← h]
    exact pyTruthy_getD _ (Bool.and_elim_right hc)
  · rw [if_neg hc] at h
    exact absurd h (by simp)

theorem hostFold_mem (idents : List Xml) (acc : List (String × Option String))
    (kv : String × Option String) (h : kv ∈ idents.foldl identStep acc) :
    kv ∈ acc ∨ ∃ p ∈ idents.filterMap validPairOf, kv = (p.1, some p.2) := by
  induction idents generalizing acc with
  | nil => exact Or.inl h
  | cons idf t ih =>
    simp only [List.foldl_cons] at h
    rcases ih (identStep acc idf) h with h1 | h1
    · rw [identStep_eq] at h1
      cases hp : validPairOf idf with
      | none =>
        rw [hp] at h1
        exact Or.inl h1
      | some q =>
        rw [hp] at h1
        rcases mem_dictSet acc q.1 (some q.2) kv h1 with h2 | h2
        · exact Or.inr ⟨q, by simp [List.filterMap_cons, hp], h2⟩
        · exact Or.inl h2
    · rcases h1 with ⟨p, hp1, hp2⟩
      refine Or.inr ⟨p, ?_, hp2⟩
      simp only [List.filterMap_cons]
      cases validPairOf idf with
      | none => exact hp1
      | some q => exact List.mem_cons_of_mem q hp1

/-! ## Concrete inputs used by the claim theorems -/

/-- A reports envelope whose single report element has no `vulns/count`
descendant. -/
def respC1 : Xml :=
  Xml.elem "get_reports_response" [("status", "200"), ("status_text", "OK")] none
    [Xml.elem "report" [("id", "r1")] none []]

/-- A detail record with no results. -/
def dEmptyDetail : ReportDetailData :=
  { id := "r1", name := "", creation_time := "", modification_time := ""
    scan_run_status := "", vulns_count := some "0", task_id := some "N/A", results := [] }

/-- A raw aggregate-path report record. -/
def rC3 : RepWT :=
  { id := some "r1", name := "n", creation_time := "", modification_time := ""
    vulns_count := "0", task_id := some "t1" }

/-- A result record carrying the given severity string. -/
def resWithSev (sev : String) : ResultData :=
  { id := none, host := "", port := "N/A", description := "", cve_numbers := []
    severity := sev, threat := "" }

/-- A detail record with severities 0, 3.5 and 7.2. -/
def dC3 : ReportDetailData :=
  { dEmptyDetail with results := [resWithSev "0", resWithSev "3.5", resWithSev "7.2"] }

/-- The rational value `pyFloat` builds for `"3.5"`. -/
def ratV35 : Rat := ((3 : Nat) : Rat) + ((5 : Nat) : Rat) / (10 : Rat) ^ (1 : Nat)

/-- The rational value `pyFloat` builds for `"7.2"`. -/
def ratV72 : Rat := ((7 : Nat) : Rat) + ((2 : Nat) : Rat) / (10 : Rat) ^ (1 : Nat)

/-- The aggregate output expected for `rC3` against `dC3`. -/
def outC3w : ReportOut :=
  { base := rC3, task_name := "Not available"
    highest_severity := max (max ((0 : Nat) : Rat) ratV35) ratV72 }

/-- The aggregate output expected for `rC3` against `dEmptyDetail`. -/
def oC3e : ReportOut :=
  { base := rC3, task_name := "Not available", highest_severity := 0 }

/-- A result element with a description but no severity child. -/
def resNoSev : Xml :=
  Xml.elem "result" [("id", "x1")] none
    [Xml.elem "description" [] (some "some finding") []]

/-- A detail record holding the translation of `resNoSev`. -/
def dC4 : ReportDetailData := { dEmptyDetail with results := [resultDataOf resNoSev] }

/-- A result element whose description has no CVE identifier. -/
def descElemC5 : Xml :=
  Xml.elem "result" [] none
    [Xml.elem "description" [] (some "no vulnerabilities found") []]

/-- A result element whose description repeats one CVE identifier. -/
def descElemC5w : Xml :=
  Xml.elem "result" [] none
    [Xml.elem "description" [] (some "CVE-2021-44228 and CVE-2021-44228") []]

/-- A targets envelope holding one existing target named web1. -/
def respC6 : Xml :=
  Xml.elem "get_targets_response" [("status", "200")] none
    [Xml.elem "target" [("id", "t1")] none [Xml.elem "name" [] (some "web1") []]]

/-- A conversion payload: one host mapping to the existing name, one new host. -/
def hostsC6 : List HostIn :=
  [{ hostname := some "web1", ip := some "10.0.0.6" },
   { hostname := none, ip := some "10.0.0.5" }]

/-- A roles error envelope (status 400, Invalid filter). -/
def respC8 : Xml :=
  Xml.elem "get_roles_response"
    [("status", "400"), ("status_text", "Invalid filter")] none []

/-- A well-formed weekly iCalendar payload as stored by the engine. -/
def icalGoodC9 : String :=
  "BEGIN:VCALENDAR\r\nVERSION:2.0\r\nPRODID:-//VulunScan//\r\nBEGIN:VEVENT\r\nDTSTART:20240115T090000\r\nRRULE:FREQ=WEEKLY;INTERVAL=2\r\nEND:VEVENT\r\nEND:VCALENDAR\r\n"

/-- A schedule element whose stored calendar text is malformed. -/
def schBadC9 : Xml :=
  Xml.elem "schedule" [("id", "s1")] none
    [Xml.elem "name" [] (some "bad") [],
     Xml.elem "icalendar" [] (some "this is not a calendar") []]

/-- A schedule element with a well-formed weekly calendar text. -/
def schGoodC9 : Xml :=
  Xml.elem "schedule" [("id", "s2")] none
    [Xml.elem "name" [] (some "good") [],
     Xml.elem "icalendar" [] (some icalGoodC9) []]

/-- A schedules envelope with one malformed and one well-formed payload. -/
def respC9 : Xml :=
  Xml.elem "get_schedules_response" [("status", "200")] none [schBadC9, schGoodC9]

/-- An asset with a duplicated identifier name, an identifier with an empty
value, and one with a missing value. -/
def assetC10 : Xml :=
  Xml.elem "asset" [("id", "a1")] none
    [Xml.elem "identifiers" [] none
      [Xml.elem "identifier" [] none
        [Xml.elem "name" [] (some "ip") [], Xml.elem "value" [] (some "1.2.3.4") []],
       Xml.elem "identifier" [] none
        [Xml.elem "name" [] (some "hostname") [], Xml.elem "value" [] none []],
       Xml.elem "identifier" [] none
        [Xml.elem "name" [] (some "os") [], Xml.elem "value" [] (some "") []],
       Xml.elem "identifier" [] none
        [Xml.elem "name" [] (some "ip") [], Xml.elem "value" [] (some "5.6.7.8") []]]]

/-- A reports envelope with two entries sharing one id (first with an empty
name) plus a distinct report. -/
def respC2 : Xml :=
  Xml.elem "get_reports_response" [("status", "200")] none
    [Xml.elem "report" [("id", "r1")] none
      [Xml.elem "name" [] none [],
       Xml.elem "vulns" [] none [Xml.elem "count" [] (some "2") []],
       Xml.elem "task" [("id", "t1")] none []],
     Xml.elem "report" [("id", "r1")] none
      [Xml.elem "name" [] (some "filled") [],
       Xml.elem "vulns" [] none [Xml.elem "count" [] (some "2") []],
       Xml.elem "task" [("id", "t1")] none []],
     Xml.elem "report" [("id", "r2")] none
      [Xml.elem "name" [] (some "other") [],
       Xml.elem "vulns" [] none [Xml.elem "count" [] (some "0") []],
       Xml.elem "task" [("id", "t2")] none []]]

/-- The exact text produced by the encoder for the weekly/interval-2 schedule
(with a fixed creation timestamp, which the decoder ignores). -/
def icalC7 : String :=
  "BEGIN:VCALENDAR\r\nVERSION:2.0\r\nPRODID:-//VulunScan//\r\nBEGIN:VEVENT\r\nDTSTAMP:20240115T080000Z\r\nDTSTART:20240115T090000\r\nRRULE:FREQ=WEEKLY;INTERVAL=2\r\nEND:VEVENT\r\nEND:VCALENDAR\r\n"

/-- A string append distributes over the character data. -/
theorem strData_append (a b : String) : (a ++ b).data = a.data ++ b.data := rfl

/-! ## Claim theorems -/

/-- Claim C1: every translator accessor replaces a missing optional XML node by
its defined default and never raises because of it; in particular
`get_reports_with_tasks` is claimed to return `vulns_count = "0"` for a report
element with no `vulns/count` child.  The code contradicts this at exactly that
point: on `respC1` (one report element, no `vulns/count` descendant) the
aggregate translator raises `AttributeError` from `None.text`, while the
guarded sibling paths `get_reports` and `get_report_by_id` do return the `"0"`
default for the same element — evidence that the unguarded
`find('.//vulns/count').text or "0"` on line 1133 is a slip (code bug). -/
theorem wt_missing_vulns_count_attribute_error :
    getReportsWithTasksTr respC1 [] (fun _ => Except.ok dEmptyDetail) =
      Except.error (PyErr.attributeError "NoneType object has no attribute text") ∧
    (getReportsTr respC1).map (fun rec => rec.vulns_count) = [some "0"] ∧
    getReportByIdTr "r1" respC1 = Except.ok
      { id := "r1", name := "", creation_time := "", modification_time := ""
        scan_run_status := "", vulns_count := some "0", task_id := some "N/A"
        results := [] } :=
  ⟨rfl, rfl, rfl⟩

/-- Claim C4: `get_report_by_id` is claimed to default an absent severity
element to `"0"` so that the `max()` in `get_reports_with_tasks` never fails.
The code actually defaults it to the empty string
(`findtext('severity', default="")`), `float("")` raises `ValueError`, and the
aggregation step fails on such a result — the `.get("severity", 0)` fallback
written inside the `max()` call shows `0` was the intent (code bug). -/
theorem severity_default_empty_not_zero :
    (resultDataOf resNoSev).severity = "" ∧
    pyFloat "" = none ∧
    enrichOne [] (fun _ => Except.ok dC4) rC3 =
      Except.error (PyErr.valueError "could not convert string to float: ") :=
  ⟨rfl, rfl, rfl⟩

/-- Claim C6: `convert_hosts_to_targets` is claimed to skip hosts whose derived
name matches an existing target and convert the rest.  The code calls
`target.findtext('name')` on the plain dicts returned by
`scanner.get_targets()`, so whenever at least one target exists the route
raises `AttributeError` before converting anything; with an empty target list
the loop itself does convert (showing the slip is the dict/element confusion,
not the loop) — code bug. -/
theorem convert_hosts_existing_target_crash :
    (getTargetsTr respC6).map TargetData.name = [some "web1"] ∧
    convertHostsToTargets (getTargetsObjs respC6) hostsC6
        (fun n _ => Except.ok ("id-" ++ n)) =
      ConvertOutcome.unhandled
        (PyErr.attributeError "dict object has no attribute findtext") ∧
    convertHostsToTargets [] hostsC6 (fun n _ => Except.ok ("id-" ++ n)) =
      ConvertOutcome.created [("web1", "id-web1"), ("10.0.0.5", "id-10.0.0.5")] :=
  ⟨rfl, rfl, rfl⟩

/-- Claim C7: encoding a schedule with frequency `weekly`, interval `2` and
start `2024-01-15T09:00:00` into iCalendar text and decoding that text yields
`period = "Every 2 week(s)"` (the creation timestamp, which the decoder
ignores, is fixed). -/
theorem schedule_roundtrip_weekly2 :
    encodeScheduleICal "2024-01-15T09:00:00" "weekly" 2 none "20240115T080000Z" =
      Except.ok icalC7 ∧
    decodePeriod icalC7 = Except.ok (some "Every 2 week(s)") :=
  ⟨rfl, rfl⟩

/-- Claim C8 (counterexample): `get_reports` performs no status check at all;
on an engine error envelope with status `400` / `Invalid filter` it returns a
normal empty list instead of failing, so the claim that every translator
accessor propagates engine-reported errors is false. -/
theorem get_reports_swallows_error :
    getReportsTr (Xml.elem "get_reports_response"
      [("status", "400"), ("status_text", "Invalid filter")] none []) = [] :=
  rfl

/-- Claim C8 (amended): an accessor that does check the engine status — such
as `get_roles` — fails on any non-`200` status with a `ValueError` whose
message (`f"Error {status}: {status_text}"`) contains the engine status and
status text verbatim as substrings; accessors without a status check, such as
`get_reports`, instead return the normally parsed (possibly empty) list. -/
theorem error_propagation_status_checked (resp : Xml) (st txt : String)
    (hst : resp.attr "status" = some st) (hne : ¬ st = "200")
    (htxt : resp.attr "status_text" = some txt) :
    getRolesTr resp = Except.error (PyErr.valueError (errMsg resp)) ∧
    (∃ p q, (errMsg resp).data = p ++ st.data ++ q) ∧
    (∃ p q, (errMsg resp).data = p ++ txt.data ++ q) ∧
    getReportsTr resp = (resp.findallDesc "report").map reportListDataOf := by
  have hcond : (resp.attr "status" == some "200") = false := by
    rw [hst]
    exact beq_eq_false_iff_ne.mpr (fun h => hne (Option.some.inj h))
  refine ⟨?_, ?_, ?_, rfl⟩
  · simp [getRolesTr, hcond]
  · refine ⟨"Error ".data, (": " ++ pyShow (resp.attr "status_text")).data, ?_⟩
    unfold errMsg
    rw [hst]
    simp only [pyShow, strData_append, List.append_assoc]
  · refine ⟨("Error " ++ pyShow (resp.attr "status") ++ ": ").data, [], ?_⟩
    unfold errMsg
    rw [htxt]
    simp only [pyShow, strData_append, List.append_assoc, List.append_nil]

/-- Claim C8 (witness): on the concrete `400 / Invalid filter` roles envelope,
`get_roles` raises `ValueError("Error 400: Invalid filter")`, whose text
contains both strings verbatim. -/
theorem error_propagation_status_checked_witness :
    getRolesTr respC8 = Except.error (PyErr.valueError (errMsg respC8)) ∧
    (errMsg respC8).data = "Error ".data ++ "400".data ++ ": Invalid filter".data :=
  ⟨(error_propagation_status_checked respC8 "400" "Invalid filter" rfl
      (by decide) rfl).1,
    by decide⟩

/-- Claim C5 (counterexample): for a description with zero regex matches the
translator's `cve_numbers` list is the empty list, not `["unknown"]` as
claimed — the `["unknown"]` substitution lives downstream in `analyze_cve`. -/
theorem translator_cve_list_not_unknown :
    cveFindall "no vulnerabilities found" = [] ∧
    (resultDataOf descElemC5).cve_numbers = [] ∧
    (resultDataOf descElemC5).cve_numbers ≠ ["unknown"] := by
  have h2 : (resultDataOf descElemC5).cve_numbers = [] := rfl
  exact ⟨rfl, h2, by rw [h2]; simp⟩

/-- Claim C5 (amended): the `cve_numbers` list produced by `get_report_by_id`
is exactly the left-to-right non-overlapping scan of the description for
`CVE-\d{4}-\d+` — every element is such a match occurring as a substring, with
repeats kept in order, and the list is empty precisely when the description
contains no substring of that shape; the `["unknown"]` default for the empty
list is applied downstream by `analyze_cve`, not by the translator. -/
theorem cve_numbers_regex_scan (e : Xml) (d : String)
    (hd : e.findtextD "description" "" = d) :
    (resultDataOf e).cve_numbers = cveFindall d ∧
    (∀ s ∈ cveFindall d, isCVEShape s ∧ ∃ p q, d.data = p ++ s.data ++ q) ∧
    (cveFindall d = [] ↔ ¬ ∃ s, isCVEShape s ∧ ∃ p q, d.data = p ++ s.data ++ q) ∧
    (cveFindall d = [] → aiCveNumbers (cveFindall d) = ["unknown"]) := by
  refine ⟨by subst hd; rfl, ?_, ?_, ?_⟩
  · intro s hs
    exact cveScan_sound d.data.length d.data le_rfl s hs
  · constructor
    · rintro hnil ⟨s, hshape, p, q, hpq⟩
      exact cveScan_complete d.data.length d.data le_rfl s p q hshape hpq hnil
    · intro hno
      cases hscan : cveFindall d with
      | nil => rfl
      | cons s rest =>
        exfalso
        have hmem : s ∈ cveFindall d := by
          rw [hscan]
          exact List.mem_cons_self _ _
        obtain ⟨hshape, p, q, hpq⟩ := cveScan_sound d.data.length d.data le_rfl s hmem
        exact hno ⟨s, hshape, p, q, hpq⟩
  · intro h
    rw [h]
    rfl

/-- Claim C5 (witness): a description repeating `CVE-2021-44228` twice yields
a two-element list, in order with the repeat kept, and the matched string has
the CVE shape. -/
theorem cve_numbers_regex_scan_witness :
    (resultDataOf descElemC5w).cve_numbers = ["CVE-2021-44228", "CVE-2021-44228"] ∧
    isCVEShape "CVE-2021-44228" := by
  have h := cve_numbers_regex_scan descElemC5w "CVE-2021-44228 and CVE-2021-44228" rfl
  refine ⟨?_, ?_⟩
  · rw [h.1]
    rfl
  · exact (h.2.1 "CVE-2021-44228" (by decide)).1

/-- Claim C9: one record is returned per schedule element (the batch is never
aborted), each record is derived from its own element alone, and for a truthy
stored calendar text the record's period is `none` when the text fails to
parse and the derived description when it parses — so one malformed payload
cannot affect the other schedules of the same call. -/
theorem get_schedules_batch_isolation (resp : Xml) :
    (getSchedulesTr resp).length = (resp.xpathAll "schedule").length ∧
    (∀ j : Nat, (getSchedulesTr resp)[j]? =
      ((resp.xpathAll "schedule")[j]?).map scheduleDataOf) ∧
    (∀ sch ictxt, sch.findtextOpt "icalendar" = some ictxt → ¬ ictxt = "" →
      (∀ err, decodePeriod ictxt = Except.error err →
        (scheduleDataOf sch).period = none) ∧
      (∀ p, decodePeriod ictxt = Except.ok p → (scheduleDataOf sch).period = p)) := by
  refine ⟨by simp [getSchedulesTr], fun j => by simp [getSchedulesTr], ?_⟩
  intro sch ictxt hic hne
  have htr : pyTruthy (some ictxt) = true := by
    show (ictxt != "") = true
    exact bne_iff_ne.mpr hne
  have hper : (scheduleDataOf sch).period =
      (if pyTruthy (sch.findtextOpt "icalendar") then
        match decodePeriod ((sch.findtextOpt "icalendar").getD "") with
        | Except.ok p => p
        | Except.error _ => none
      else none) := rfl
  rw [hic] at hper
  rw [htr] at hper
  simp only [if_true, Option.getD_some] at hper
  constructor
  · intro err herr
    rw [hper]
    simp only [herr]
  · intro p hp
    rw [hper]
    simp only [hp]

/-- Claim C9 (witness): the concrete listing with one malformed and one
well-formed payload returns both schedules, the malformed one with no period
and the well-formed one with the derived weekly period. -/
theorem get_schedules_batch_isolation_witness :
    (getSchedulesTr respC9).length = 2 ∧
    ((getSchedulesTr respC9)[0]?).map ScheduleData.period = some none ∧
    ((getSchedulesTr respC9)[1]?).map ScheduleData.period =
      some (some "Every 2 week(s)") := by
  have h := get_schedules_batch_isolation respC9
  refine ⟨by rw [h.1]; rfl, ?_, ?_⟩
  · rw [h.2.1 0]
    have hbad := (h.2.2 schBadC9 "this is not a calendar" rfl (by decide)).1
      (PyErr.valueError
        "Content line could not be parsed into parts: this is not a calendar") rfl
    rw [show (respC9.xpathAll "schedule")[0]? = some schBadC9 from rfl]
    simp only [Option.map_some']
    rw [hbad]
  · rw [h.2.1 1]
    have hgood := (h.2.2 schGoodC9 icalGoodC9 rfl (by decide)).2
      (some "Every 2 week(s)") rfl
    rw [show (respC9.xpathAll "schedule")[1]? = some schGoodC9 from rfl]
    simp only [Option.map_some']
    rw [hgood]

/-- Claim C10: in every host record built by `get_hosts`, each
identifier-derived key maps to a non-empty string value (an identifier with a
missing or empty name or value contributes no key, so only the fixed `id` key
can carry `None`), every key other than `id` comes from a valid identifier,
and when one identifier name occurs several times the record stores the last
occurrence's value. -/
theorem get_hosts_identifier_invariants (asset : Xml) :
    (∀ kv ∈ hostDataOf asset, ¬ kv.1 = "id" → ∃ s, kv.2 = some s ∧ ¬ s = "") ∧
    (∀ kv ∈ hostDataOf asset,
      kv.1 = "id" ∨ kv.1 ∈ (validIdentPairs asset).map Prod.fst) ∧
    (∀ k v, lastVal (validIdentPairs asset) k = some v →
      dictGet (hostDataOf asset) k = some (some v)) := by
  refine ⟨?_, ?_, ?_⟩
  · intro kv hkv hne
    rcases hostFold_mem (identifiersOf asset) _ kv hkv with h1 | h1
    · simp only [List.mem_singleton] at h1
      exact absurd (by rw [h1]) hne
    · rcases h1 with ⟨p, hp, hkveq⟩
      rcases List.mem_filterMap.mp hp with ⟨idf, hidf, hvp⟩
      exact ⟨p.2, by rw [hkveq], validPairOf_snd_ne idf p hvp⟩
  · intro kv hkv
    rcases hostFold_mem (identifiersOf asset) _ kv hkv with h1 | h1
    · left
      simp only [List.mem_singleton] at h1
      rw [h1]
    · right
      rcases h1 with ⟨p, hp, hkveq⟩
      exact List.mem_map.mpr ⟨p, hp, by rw [hkveq]⟩
  · intro k v hlast
    have hfold := identFold_get k (identifiersOf asset) [("id", asset.attr "id")]
    rw [show hostDataOf asset =
      (identifiersOf asset).foldl identStep [("id", asset.attr "id")] from rfl]
    rw [hfold]
    have hl2 : lastVal ((identifiersOf asset).filterMap validPairOf) k = some v := hlast
    rw [hl2]

/-- Claim C10 (witness): on the concrete asset with a duplicated `ip`
identifier, an empty-value identifier and a missing-value identifier, the
record keeps only `id` and the last `ip` value. -/
theorem get_hosts_identifier_invariants_witness :
    dictGet (hostDataOf assetC10) "ip" = some (some "5.6.7.8") ∧
    hostDataOf assetC10 = [("id", some "a1"), ("ip", some "5.6.7.8")] := by
  have h := get_hosts_identifier_invariants assetC10
  exact ⟨h.2.2 "ip" "5.6.7.8" (by rfl), rfl⟩

/-- Claim C3: in the aggregation step of `get_reports_with_tasks`, the
`highest_severity` of a deduplicated report is the maximum of the float-parsed
severity values of the results returned by the per-report detail fetch, and is
`0` when the detail result list is empty. -/
theorem reports_with_tasks_highest_severity (tasks : List TaskData)
    (details : Option String → Except PyErr ReportDetailData) (r : RepWT)
    (d : ReportDetailData) (out : ReportOut)
    (hd : details r.id = Except.ok d)
    (hout : enrichOne tasks details r = Except.ok out) :
    (d.results = [] → out.highest_severity = 0) ∧
    (∀ (s : Rat) (rest : List Rat),
      exMapM (fun res => pyFloatE res.severity) d.results = Except.ok (s :: rest) →
      out.highest_severity = rest.foldl max s ∧
      out.highest_severity ∈ (s :: rest) ∧
      (∀ q ∈ (s :: rest), q ≤ out.highest_severity)) := by
  have hhs : highestSeverity d.results = Except.ok out.highest_severity := by
    cases hs : highestSeverity d.results with
    | error e => simp [enrichOne, hd, hs] at hout
    | ok q =>
      simp only [enrichOne, hd, hs, Except.ok.injEq] at hout
      rw [← hout]
  constructor
  · intro hnil
    rw [hnil] at hhs
    have : highestSeverity ([] : List ResultData) = Except.ok 0 := rfl
    rw [this] at hhs
    exact (Except.ok.inj hhs).symm
  · intro s rest hmap
    have hval : highestSeverity d.results = Except.ok (rest.foldl max s) := by
      unfold highestSeverity
      rw [hmap]
    rw [hval] at hhs
    have heq : out.highest_severity = rest.foldl max s := (Except.ok.inj hhs).symm
    refine ⟨heq, ?_, ?_⟩
    · rw [heq]
      exact foldl_max_mem s rest
    · intro q hq
      rw [heq]
      exact le_foldl_max s rest q hq

/-- Claim C3 (witness): detail results with severities `"0"`, `"3.5"`, `"7.2"`
yield highest severity `7.2`, and an empty detail result list yields `0`. -/
theorem reports_with_tasks_highest_severity_witness :
    enrichOne [] (fun _ => Except.ok dC3) rC3 = Except.ok outC3w ∧
    outC3w.highest_severity = 36 / 5 ∧
    enrichOne [] (fun _ => Except.ok dEmptyDetail) rC3 = Except.ok oC3e ∧
    oC3e.highest_severity = 0 := by
  have hmap : exMapM (fun res => pyFloatE res.severity) dC3.results =
      Except.ok [((0 : Nat) : Rat), ratV35, ratV72] := rfl
  have h := reports_with_tasks_highest_severity [] (fun _ => Except.ok dC3) rC3 dC3
    outC3w rfl rfl
  have h2 := h.2 ((0 : Nat) : Rat) [ratV35, ratV72] hmap
  have h3 := (reports_with_tasks_highest_severity [] (fun _ => Except.ok dEmptyDetail)
    rC3 dEmptyDetail oC3e rfl rfl).1 rfl
  refine ⟨rfl, ?_, rfl, h3⟩
  rw [h2.1]
  simp only [List.foldl_cons, List.foldl_nil]
  have e0 : ((0 : Nat) : Rat) = 0 := by norm_num
  have e35 : ratV35 = 7 / 2 := by unfold ratV35; norm_num
  have e72 : ratV72 = 36 / 5 := by unfold ratV72; norm_num
  rw [e0, e35, e72]
  rw [max_eq_right (by norm_num : (0 : Rat) ≤ 7 / 2)]
  rw [max_eq_right (by norm_num : (7 : Rat) / 2 ≤ 36 / 5)]

/-- The three raw records parsed from `respC2`. -/
def rawR1a : RepWT :=
  { id := some "r1", name := "", creation_time := "", modification_time := ""
    vulns_count := "2", task_id := some "t1" }

/-- The duplicate of `rawR1a` carrying a non-empty name. -/
def rawR1b : RepWT := { rawR1a with name := "filled" }

/-- The distinct second report of `respC2`. -/
def rawR2 : RepWT :=
  { id := some "r2", name := "other", creation_time := "", modification_time := ""
    vulns_count := "0", task_id := some "t2" }

/-- The raw parse of `respC2`. -/
def rawsC2 : List RepWT := [rawR1a, rawR1b, rawR2]

/-- The first aggregate output record for `respC2` (the non-empty-name
duplicate wins). -/
def outC2a : ReportOut :=
  { base := rawR1b, task_name := "Not available", highest_severity := 0 }

/-- The second aggregate output record for `respC2`. -/
def outC2b : ReportOut :=
  { base := rawR2, task_name := "Not available", highest_severity := 0 }

/-- Claim C2: the output of `get_reports_with_tasks` holds exactly one record
per report id (ids are distinct and cover exactly the raw ids); for each id
the surviving base record is the left fold of the merge rule over the raw
entries with that id — a stored empty-name entry is superseded by a later
non-empty-name entry, and in every other duplicate case the stored entry is
kept. -/
theorem reports_with_tasks_dedup_by_id (resp : Xml) (tasks : List TaskData)
    (details : Option String → Except PyErr ReportDetailData)
    (raws : List RepWT) (out : List ReportOut)
    (hraw : parseRawWT resp = Except.ok raws)
    (hout : getReportsWithTasksTr resp tasks details = Except.ok out) :
    ((out.map (fun o => o.base.id)).Nodup) ∧
    (∀ i : Option String, (∃ r ∈ raws, r.id = i) ↔ (∃ o ∈ out, o.base.id = i)) ∧
    (∀ (i : Option String) (r : RepWT) (rs : List RepWT),
      raws.filter (fun x => x.id == i) = r :: rs →
      ∃ o ∈ out, o.base = rs.foldl mergeRule r) := by
  have hmm : exMapM (enrichOne tasks details) (dedupReports raws) = Except.ok out := by
    simp only [getReportsWithTasksTr, hraw] at hout
    exact hout
  have hfa := exMapM_ok_forall (enrichOne tasks details) (dedupReports raws) out hmm
  have hbase : out.map (fun o => o.base) = dedupReports raws :=
    forall₂_map_back _ _ _ _ hfa (fun a b hb => enrichOne_base tasks details a b hb)
  refine ⟨?_, ?_, ?_⟩
  · have h1 : out.map (fun o => o.base.id) = (dedupReports raws).map RepWT.id := by
      rw [← hbase, List.map_map]
      rfl
    rw [h1]
    exact dedup_ids_nodup raws [] (by simp)
  · intro i
    rw [dedup_mem_ids raws i]
    constructor
    · rintro ⟨x, hx, hxid⟩
      have hx2 : x ∈ out.map (fun o => o.base) := by rw [hbase]; exact hx
      rcases List.mem_map.mp hx2 with ⟨o, ho, hob⟩
      exact ⟨o, ho, by rw [hob, hxid]⟩
    · rintro ⟨o, ho, hoid⟩
      refine ⟨o.base, ?_, hoid⟩
      rw [← hbase]
      exact List.mem_map.mpr ⟨o, ho, rfl⟩
  · intro i r rs hfil
    have hfind : (dedupReports raws).find? (fun x => x.id == i) =
        some (rs.foldl mergeRule r) := by
      show ((raws.foldl dedupStep []).find? (fun x => x.id == i)) = _
      rw [dedup_fold_find, hfil]
      show (r :: rs).foldl mergeStep none = _
      simp only [List.foldl_cons, mergeStep]
      exact foldl_mergeStep_some rs r
    have hmem := List.mem_of_find?_eq_some hfind
    have hmem2 : rs.foldl mergeRule r ∈ out.map (fun o => o.base) := by
      rw [hbase]
      exact hmem
    rcases List.mem_map.mp hmem2 with ⟨o, ho, hob⟩
    exact ⟨o, ho, hob⟩

/-- Claim C2 (witness): on the concrete envelope with two entries for `r1`
(first with an empty name, then a filled one) and one entry for `r2`, the
aggregate holds exactly one record per id, the `r1` record carries the
non-empty-name entry's data, and the ids are distinct. -/
theorem reports_with_tasks_dedup_by_id_witness :
    getReportsWithTasksTr respC2 [] (fun _ => Except.ok dEmptyDetail) =
      Except.ok [outC2a, outC2b] ∧
    ([outC2a, outC2b].map (fun o => o.base.id)).Nodup ∧
    (∃ o ∈ [outC2a, outC2b], o.base = [rawR1b].foldl mergeRule rawR1a) ∧
    [rawR1b].foldl mergeRule rawR1a = rawR1b := by
  have h := reports_with_tasks_dedup_by_id respC2 [] (fun _ => Except.ok dEmptyDetail)
    rawsC2 [outC2a, outC2b] rfl rfl
  exact ⟨rfl, h.1, h.2.2 (some "r1") rawR1a [rawR1b] rfl, rfl⟩
